import Mathlib

/-!
# Verification of the restaurant order store

Shallow embedding of the order-tracking service of this repository:
the meal catalog (`src/meals_catalog.rs`), the order entity and factory
(`src/api/order.rs`), the SQLite-backed order store
(`src/storage.rs`, `InMemorySQLiteStorage`), and the request handlers
(`src/app.rs`).

Modelling choices:
* `chrono::DateTime<Utc>` timestamps and `chrono::Duration` are modelled
  as `Int` (seconds); `Utc::now()`, called inside `Order::new` and
  `delete_order`, becomes an explicit `now : Int` argument.
* The SQLite `orders` table is a list of rows in rowid order; rows are
  never physically removed, matching the soft-delete design.
* `id INTEGER PRIMARY KEY` with no `AUTOINCREMENT`: SQLite assigns
  `max(existing rowid) + 1` (1 on an empty table), embodied by `nextId`.
* A `SELECT` without `ORDER BY` is modelled as a scan in rowid
  (insertion) order, i.e. `List.filter` over the row list.
* `anyhow::Result` success is the only path modelled (the failure path
  is I/O unavailability, outside the embedding); `delete_order`'s Rust
  return type `Result<()>` is kept faithfully as `Unit × Store`.
-/

namespace Restaurant

/-- `MealInfo` from `src/meals_catalog.rs`: id, name, cooking time
(`chrono::Duration`, modelled in seconds). -/
structure MealInfo where
  id : Nat
  name : String
  cooking_time : Int
deriving DecidableEq, Repr

/-- The static catalog `MEALS` from `src/meals_catalog.rs`:
six meals, ids 0..5, cooking times 1..6 minutes. -/
def MEALS : List MealInfo :=
  [ ⟨0, "Green Tea", 60⟩
  , ⟨1, "Americano Coffee", 120⟩
  , ⟨2, "Omellete", 180⟩
  , ⟨3, "Fried Egg", 240⟩
  , ⟨4, "Club Sandwich", 300⟩
  , ⟨5, "Fried Rice", 360⟩ ]

/-- `MealCatalog::get` from `src/meals_catalog.rs`:
`self.meals.iter().find(|m| m.id == meal_id)`. -/
def getMeal (meal_id : Nat) : Option MealInfo :=
  MEALS.find? (fun m => m.id == meal_id)

/-- `Order` from `src/api/order.rs`: `id`, `table_id`, `meal_id`
(`u32`), `added_at`, `ready_at` (`DateTime<Utc>`). -/
structure Order where
  id : Nat
  table_id : Nat
  meal_id : Nat
  added_at : Int
  ready_at : Int
deriving DecidableEq, Repr

/-- The `u32::MAX` sentinel that `Order::new` puts in the `id` field. -/
def sentinelId : Nat := 4294967295

/-- `Order::new` from `src/api/order.rs`: the factory sets
`id = OrderId::MAX`, `added_at = now`, `ready_at = now + meal.cooking_time`. -/
def Order.new (table_id : Nat) (meal : MealInfo) (now : Int) : Order :=
  { id := sentinelId
  , table_id := table_id
  , meal_id := meal.id
  , added_at := now
  , ready_at := now + meal.cooking_time }

/-- One row of the SQLite `orders` table created in
`InMemorySQLiteStorage::init`: columns `id, table_id, meal_id,
added_at, ready_at, deleted_at (nullable)`. -/
structure Row where
  id : Nat
  table_id : Nat
  meal_id : Nat
  added_at : Int
  ready_at : Int
  deleted_at : Option Int
deriving DecidableEq, Repr

/-- The state of `InMemorySQLiteStorage`: the `orders` table as a list
of rows in rowid (insertion) order. -/
structure Store where
  rows : List Row
deriving DecidableEq, Repr

/-- The freshly initialised store: `CREATE TABLE` leaves it empty. -/
def Store.empty : Store := ⟨[]⟩

/-- SQLite rowid assignment for `id INTEGER PRIMARY KEY`:
one more than the largest existing rowid, `1` on an empty table. -/
def nextId (s : Store) : Nat :=
  (s.rows.map Row.id).foldr max 0 + 1

/-- `rowToOrder`: what `sqlx::query_as::<_, Order>` produces from a row
(`Order` derives `sqlx::FromRow`; the `deleted_at` column is dropped). -/
def rowToOrder (r : Row) : Order :=
  { id := r.id
  , table_id := r.table_id
  , meal_id := r.meal_id
  , added_at := r.added_at
  , ready_at := r.ready_at }

/-- `Storage::add_order` from `src/storage.rs`:
`INSERT INTO orders (table_id, meal_id, added_at, ready_at) VALUES (?, ?, ?, ?) RETURNING id`.
The `id` field of the argument is not bound by the INSERT; the store
assigns the rowid and returns it. -/
def addOrder (s : Store) (o : Order) : Nat × Store :=
  let nid := nextId s
  ( nid
  , ⟨s.rows ++ [{ id := nid
                , table_id := o.table_id
                , meal_id := o.meal_id
                , added_at := o.added_at
                , ready_at := o.ready_at
                , deleted_at := none }]⟩ )

/-- `Storage::get_order` from `src/storage.rs`:
`SELECT * FROM orders where id = ? and deleted_at IS NULL`, `fetch_optional`. -/
def getOrder (s : Store) (oid : Nat) : Option Order :=
  (s.rows.find? (fun r => r.id == oid && r.deleted_at.isNone)).map rowToOrder

/-- `Storage::delete_order` from `src/storage.rs`:
`UPDATE orders SET deleted_at = ? WHERE id = ?` (binding `Utc::now()`),
`.map(|_| ())`. The Rust trait returns `anyhow::Result<()>`; the success
value is the unit, kept as the first component. -/
def deleteOrder (s : Store) (now : Int) (oid : Nat) : Unit × Store :=
  ( ()
  , ⟨s.rows.map (fun r =>
      if r.id == oid then { r with deleted_at := some now } else r)⟩ )

/-- `Storage::get_orders_for_table` from `src/storage.rs`:
`SELECT * FROM orders WHERE table_id = ? AND deleted_at IS NULL`, `fetch_all`.
The SQL has no `ORDER BY`, so the sequence in which the matching rows
come back is not guaranteed by the program; this definition lists them
in rowid order and is used below only for order-independent facts
(membership, i.e. which orders are returned). The order the planner
actually produces with the schema's index is modelled separately by
`getOrdersForTableIdxScan`. -/
def getOrdersForTable (s : Store) (t : Nat) : List Order :=
  (s.rows.filter (fun r => r.table_id == t && r.deleted_at.isNone)).map rowToOrder

/-- Stable insertion of a row into a list sorted by `meal_id`. -/
def insertByMealId (r : Row) : List Row → List Row
  | [] => [r]
  | x :: xs => if r.meal_id ≤ x.meal_id then r :: x :: xs else x :: insertByMealId r xs

/-- Stable sort of rows by `meal_id` (rowid order as the tiebreak,
by stability over a rowid-ordered input). -/
def sortByMealId : List Row → List Row
  | [] => []
  | x :: xs => insertByMealId x (sortByMealId xs)

/-- The scan SQLite performs for
`SELECT * FROM orders WHERE table_id = ? AND deleted_at IS NULL` when
the planner uses the index `table_id_idx(table_id, meal_id, deleted_at)`
created in `InMemorySQLiteStorage::init`: for the fixed `table_id`, the
matching index entries are visited in index order, i.e. sorted by
`meal_id` with rowid as the final tiebreak — not in insertion order.
The SQL itself guarantees no order at all. -/
def getOrdersForTableIdxScan (s : Store) (t : Nat) : List Order :=
  (sortByMealId (s.rows.filter (fun r => r.table_id == t && r.deleted_at.isNone))).map
    rowToOrder

/-- `Storage::get_meal_orders_for_table` from `src/storage.rs`:
`SELECT * FROM orders WHERE table_id = ? AND meal_id = ? AND deleted_at IS NULL`. -/
def getMealOrdersForTable (s : Store) (t m : Nat) : List Order :=
  (s.rows.filter (fun r =>
    r.table_id == t && r.meal_id == m && r.deleted_at.isNone)).map rowToOrder

/-- The `put_order` handler from `src/app.rs`: resolve the meal id
against `MEALS`; on a hit build the order with `Order::new` and store it
(HTTP 200), on a miss answer `StatusCode::BAD_REQUEST` (400) without
touching the store. Result: (status code, response store state). -/
def putOrder (s : Store) (now : Int) (table_id meal_id : Nat) : Nat × Store :=
  match getMeal meal_id with
  | some meal => (200, (addOrder s (Order.new table_id meal now)).2)
  | none => (400, s)

/-- A store operation: the two mutating calls of the `Storage` trait. -/
inductive Op where
  | add (o : Order)
  | delete (now : Int) (oid : Nat)
deriving DecidableEq, Repr

/-- Apply one operation to the store. -/
def stepOp (s : Store) : Op → Store
  | .add o => (addOrder s o).2
  | .delete now oid => (deleteOrder s now oid).2

/-- Run a sequence of operations from a given store state. -/
def execOps (s : Store) (ops : List Op) : Store :=
  ops.foldl stepOp s

/-! ## Basic lemmas about id assignment -/

lemma le_foldr_max (l : List Nat) : ∀ x ∈ l, x ≤ l.foldr max 0 := by
  induction l with
  | nil => intro x hx; cases hx
  | cons a t ih =>
    intro x hx
    rcases List.mem_cons.mp hx with rfl | hx
    · exact le_max_left _ _
    · exact le_trans (ih x hx) (le_max_right _ _)

lemma foldr_max_of_forall_le (l : List Nat) (b : Nat) (h : ∀ x ∈ l, x ≤ b) :
    l.foldr max b = b := by
  induction l with
  | nil => rfl
  | cons a t ih =>
    simp only [List.foldr_cons]
    rw [ih (fun x hx => h x (List.mem_cons_of_mem _ hx))]
    exact max_eq_right (h a (List.mem_cons_self a t))

lemma foldr_max_init (l : List Nat) (b : Nat) :
    l.foldr max b = max b (l.foldr max 0) := by
  induction l with
  | nil => simp
  | cons a t ih =>
    simp only [List.foldr_cons, ih]
    rw [max_left_comm]

/-- Every row already in the table has a rowid strictly below the next
assigned one: freshness of `addOrder`'s id. -/
lemma id_lt_nextId (s : Store) (r : Row) (hr : r ∈ s.rows) : r.id < nextId s :=
  Nat.lt_succ_of_le (le_foldr_max _ _ (List.mem_map_of_mem Row.id hr))

lemma addOrder_fst (s : Store) (o : Order) : (addOrder s o).1 = nextId s := rfl

lemma addOrder_rows (s : Store) (o : Order) :
    (addOrder s o).2.rows =
      s.rows ++ [{ id := nextId s, table_id := o.table_id, meal_id := o.meal_id,
                   added_at := o.added_at, ready_at := o.ready_at,
                   deleted_at := none }] := rfl

lemma deleteOrder_rows (s : Store) (now : Int) (oid : Nat) :
    (deleteOrder s now oid).2.rows =
      s.rows.map (fun r =>
        if r.id == oid then { r with deleted_at := some now } else r) := rfl

/-- The row-updating function of `deleteOrder` keeps the rowid. -/
lemma delete_map_id (now : Int) (oid : Nat) (r : Row) :
    (if r.id == oid then { r with deleted_at := some now } else r).id = r.id := by
  by_cases h : r.id == oid <;> simp [h]

/-- `deleteOrder` keeps the id column of the table unchanged. -/
lemma deleteOrder_map_ids (s : Store) (now : Int) (oid : Nat) :
    (deleteOrder s now oid).2.rows.map Row.id = s.rows.map Row.id := by
  rw [deleteOrder_rows, List.map_map]
  exact List.map_congr_left fun r _ => delete_map_id now oid r

/-! ## Invariants of reachable store states -/

/-- The id column of a store state, in rowid (insertion) order. -/
def storeIds (s : Store) : List Nat := s.rows.map Row.id

/-- In any state reachable from the empty store, the id column is
exactly `[1, 2, ..., n]` for `n` the number of rows. -/
def IdsCanonical (s : Store) : Prop :=
  storeIds s = List.range' 1 s.rows.length

lemma foldr_max_range' (n : Nat) : (List.range' 1 n).foldr max 0 = n := by
  induction n with
  | zero => rfl
  | succ k ih =>
    rw [List.range'_concat, List.foldr_append]
    simp only [List.foldr_cons, List.foldr_nil]
    rw [foldr_max_init, ih]
    omega

lemma nextId_of_canonical (s : Store) (h : IdsCanonical s) :
    nextId s = s.rows.length + 1 := by
  unfold nextId
  have : s.rows.map Row.id = List.range' 1 s.rows.length := h
  rw [this, foldr_max_range' s.rows.length]

lemma range'_one_concat (n : Nat) :
    List.range' 1 (n + 1) = List.range' 1 n ++ [n + 1] := by
  rw [List.range'_concat]
  simp [Nat.add_comm]

lemma idsCanonical_step (s : Store) (op : Op) (h : IdsCanonical s) :
    IdsCanonical (stepOp s op) := by
  cases op with
  | add o =>
    unfold IdsCanonical storeIds at *
    show ((addOrder s o).2.rows.map Row.id) =
      List.range' 1 (addOrder s o).2.rows.length
    simp [addOrder_rows, h, nextId_of_canonical s h, range'_one_concat]
  | delete now oid =>
    unfold IdsCanonical storeIds at *
    show ((deleteOrder s now oid).2.rows.map Row.id) =
      List.range' 1 (deleteOrder s now oid).2.rows.length
    rw [deleteOrder_map_ids, h, deleteOrder_rows, List.length_map]

lemma idsCanonical_exec (s : Store) (ops : List Op) (h : IdsCanonical s) :
    IdsCanonical (execOps s ops) := by
  induction ops generalizing s with
  | nil => exact h
  | cons op rest ih => exact ih _ (idsCanonical_step s op h)

lemma idsCanonical_empty : IdsCanonical Store.empty := rfl

lemma idsCanonical_reachable (ops : List Op) :
    IdsCanonical (execOps Store.empty ops) :=
  idsCanonical_exec _ ops idsCanonical_empty

lemma pairwise_lt_range' (a n : Nat) : (List.range' a n).Pairwise (· < ·) := by
  induction n generalizing a with
  | zero => exact List.Pairwise.nil
  | succ k ih =>
    rw [List.range'_succ]
    refine List.Pairwise.cons ?_ (ih (a + 1))
    intro b hb
    have := List.mem_range'_1.mp hb
    omega

/-- The id column of a reachable state is strictly increasing in
insertion order. -/
lemma storeIds_pairwise (ops : List Op) :
    (storeIds (execOps Store.empty ops)).Pairwise (· < ·) := by
  rw [idsCanonical_reachable ops]
  exact pairwise_lt_range' 1 _

lemma storeIds_nodup (ops : List Op) :
    (storeIds (execOps Store.empty ops)).Nodup :=
  (storeIds_pairwise ops).imp Nat.ne_of_lt

/-! ## Characterising `getOrder` and the table query -/

lemma getOrder_eq_none_iff (s : Store) (oid : Nat) :
    getOrder s oid = none ↔
      ∀ r ∈ s.rows, r.id = oid → r.deleted_at ≠ none := by
  unfold getOrder
  rw [Option.map_eq_none', List.find?_eq_none]
  constructor
  · intro h r hr hid hdel
    have := h r hr
    simp [hid, hdel] at this
  · intro h r hr
    simp only [Bool.and_eq_true, beq_iff_eq, Option.isNone_iff_eq_none, not_and]
    intro hid
    exact fun hdel => h r hr hid hdel

lemma getOrder_eq_some_elim (s : Store) (oid : Nat) (o : Order)
    (h : getOrder s oid = some o) :
    ∃ r ∈ s.rows, r.id = oid ∧ r.deleted_at = none ∧ rowToOrder r = o := by
  unfold getOrder at h
  rw [Option.map_eq_some'] at h
  obtain ⟨r, hfind, hro⟩ := h
  have hmem := List.mem_of_find?_eq_some hfind
  have hpred := List.find?_some hfind
  simp only [Bool.and_eq_true, beq_iff_eq, Option.isNone_iff_eq_none] at hpred
  exact ⟨r, hmem, hpred.1, hpred.2, hro⟩

lemma getOrder_isSome_iff (s : Store) (oid : Nat) :
    (getOrder s oid).isSome = true ↔
      ∃ r ∈ s.rows, r.id = oid ∧ r.deleted_at = none := by
  constructor
  · intro h
    obtain ⟨o, ho⟩ := Option.isSome_iff_exists.mp h
    obtain ⟨r, hmem, hid, hdel, _⟩ := getOrder_eq_some_elim s oid o ho
    exact ⟨r, hmem, hid, hdel⟩
  · intro ⟨r, hmem, hid, hdel⟩
    unfold getOrder
    rw [Option.isSome_map']
    rw [Option.isSome_iff_ne_none]
    intro hnone
    rw [List.find?_eq_none] at hnone
    have := hnone r hmem
    simp [hid, hdel] at this

/-- With a duplicate-free id column, `getOrder` on the id of a live row
returns exactly that row. -/
lemma getOrder_of_mem_nodup (s : Store) (r : Row)
    (hnd : (storeIds s).Nodup) (hmem : r ∈ s.rows) (hdel : r.deleted_at = none) :
    getOrder s r.id = some (rowToOrder r) := by
  have hsome : (getOrder s r.id).isSome = true :=
    (getOrder_isSome_iff s r.id).mpr ⟨r, hmem, rfl, hdel⟩
  obtain ⟨o, ho⟩ := Option.isSome_iff_exists.mp hsome
  obtain ⟨x, hxmem, hxid, _, hxo⟩ := getOrder_eq_some_elim s r.id o ho
  have hinj := List.inj_on_of_nodup_map (f := Row.id) hnd
  have : x = r := hinj hxmem hmem hxid
  rw [ho, ← hxo, this]

lemma mem_getOrdersForTable_iff (s : Store) (t : Nat) (o : Order) :
    o ∈ getOrdersForTable s t ↔
      ∃ r ∈ s.rows, r.table_id = t ∧ r.deleted_at = none ∧ rowToOrder r = o := by
  unfold getOrdersForTable
  simp only [List.mem_map, List.mem_filter, Bool.and_eq_true, beq_iff_eq,
    Option.isNone_iff_eq_none]
  constructor
  · intro ⟨r, ⟨hmem, ht, hdel⟩, hro⟩
    exact ⟨r, hmem, ht, hdel, hro⟩
  · intro ⟨r, hmem, ht, hdel, hro⟩
    exact ⟨r, ⟨hmem, ht, hdel⟩, hro⟩

/-! ## Deleted orders stay deleted -/

lemma stepOp_add (s : Store) (o : Order) : stepOp s (.add o) = (addOrder s o).2 := rfl

lemma stepOp_delete (s : Store) (now : Int) (oid : Nat) :
    stepOp s (.delete now oid) = (deleteOrder s now oid).2 := rfl

/-- Invariant: a row with the given id exists and every row with that
id carries a deletion mark. -/
def DeletedForever (oid : Nat) (s : Store) : Prop :=
  (∃ r ∈ s.rows, r.id = oid) ∧ ∀ r ∈ s.rows, r.id = oid → r.deleted_at ≠ none

lemma deletedForever_step (oid : Nat) (s : Store) (op : Op)
    (h : DeletedForever oid s) : DeletedForever oid (stepOp s op) := by
  obtain ⟨⟨r0, hr0, hr0id⟩, hall⟩ := h
  cases op with
  | add o =>
    have hfresh : oid < nextId s := hr0id ▸ id_lt_nextId s r0 hr0
    constructor
    · refine ⟨r0, ?_, hr0id⟩
      rw [stepOp_add, addOrder_rows]
      exact List.mem_append_left _ hr0
    · intro r hr hid
      rw [stepOp_add, addOrder_rows] at hr
      rcases List.mem_append.mp hr with hmem | hmem
      · exact hall r hmem hid
      · rw [List.mem_singleton] at hmem
        subst hmem
        simp only at hid
        omega
  | delete now oid2 =>
    constructor
    · refine ⟨(fun r => if r.id == oid2 then { r with deleted_at := some now } else r) r0,
        ?_, ?_⟩
      · rw [stepOp_delete, deleteOrder_rows]
        exact List.mem_map_of_mem _ hr0
      · rw [delete_map_id]
        exact hr0id
    · intro r hr hid
      rw [stepOp_delete, deleteOrder_rows] at hr
      obtain ⟨x, hx, hxr⟩ := List.mem_map.mp hr
      subst hxr
      have hid' : x.id = oid := by rw [delete_map_id] at hid; exact hid
      by_cases hxid : x.id == oid2
      · rw [if_pos hxid]
        simp
      · rw [if_neg hxid]
        exact hall x hx hid'

lemma deletedForever_exec (oid : Nat) (s : Store) (ops : List Op)
    (h : DeletedForever oid s) : DeletedForever oid (execOps s ops) := by
  induction ops generalizing s with
  | nil => exact h
  | cons op rest ih => exact ih _ (deletedForever_step oid s op h)

/-- Deleting an order establishes the invariant, provided a row with
the id existed. -/
lemma deletedForever_of_delete (s : Store) (now : Int) (oid : Nat)
    (h : ∃ r ∈ s.rows, r.id = oid) :
    DeletedForever oid (deleteOrder s now oid).2 := by
  obtain ⟨r0, hr0, hr0id⟩ := h
  constructor
  · refine ⟨(fun r => if r.id == oid then { r with deleted_at := some now } else r) r0,
      ?_, ?_⟩
    · rw [deleteOrder_rows]
      exact List.mem_map_of_mem _ hr0
    · rw [delete_map_id]
      exact hr0id
  · intro r hr hid
    rw [deleteOrder_rows] at hr
    obtain ⟨x, hx, hxr⟩ := List.mem_map.mp hr
    subst hxr
    have hid' : x.id = oid := by rw [delete_map_id] at hid; exact hid
    rw [if_pos (beq_iff_eq.mpr hid')]
    simp

/-! ## Further helper lemmas -/

/-- Every meal of the static catalog has a strictly positive cooking time. -/
lemma MEALS_cooking_pos : ∀ m ∈ MEALS, 0 < m.cooking_time := by decide

/-- Looking up the order just stored under its returned id hits exactly
the freshly inserted row. -/
lemma getOrder_addOrder (s : Store) (o : Order) :
    getOrder (addOrder s o).2 (addOrder s o).1
      = some { id := nextId s, table_id := o.table_id, meal_id := o.meal_id
             , added_at := o.added_at, ready_at := o.ready_at } := by
  unfold getOrder
  rw [addOrder_fst, addOrder_rows, List.find?_append]
  have h1 : s.rows.find? (fun r => r.id == nextId s && r.deleted_at.isNone) = none := by
    rw [List.find?_eq_none]
    intro r hr
    have hlt := id_lt_nextId s r hr
    simp only [Bool.and_eq_true, beq_iff_eq, Option.isNone_iff_eq_none, not_and]
    rintro he -
    omega
  rw [h1]
  simp [rowToOrder]

/-! ## The claims -/

/-- C1 (code_bug evidence): `delete_order`'s return value in
`src/storage.rs` is the unit of `anyhow::Result<()>`, so it is
identical whether or not a live order with the requested id exists; it
cannot be the boolean the claim (and the `app.rs` handler, which
matches on `Ok(true)`/`Ok(false)`) requires. Here: deleting id 1 from
the empty store returns the same value as deleting id 1 from a store
holding a live order with id 1, although `getOrder` distinguishes the
two states. -/
theorem C1_delete_order_returns_unit_not_bool :
    (deleteOrder Store.empty 0 1).1
        = (deleteOrder ⟨[⟨1, 2, 3, 0, 240, none⟩]⟩ 0 1).1
    ∧ getOrder Store.empty 1 = none
    ∧ getOrder ⟨[⟨1, 2, 3, 0, 240, none⟩]⟩ 1 = some ⟨1, 2, 3, 0, 240⟩ := by
  decide

/-- C5: in every store state reachable by any sequence of `add_order`
and `delete_order` operations from the fresh store, the id column (in
insertion order) is exactly `[1, 2, ..., n]`: ids are unique, never
reused, and strictly monotonically increasing in the order the
`add_order` calls succeeded. -/
theorem C5_ids_unique_monotone_never_reused (ops : List Op) :
    ((execOps Store.empty ops).rows.map Row.id).Pairwise (· < ·)
    ∧ ((execOps Store.empty ops).rows.map Row.id).Nodup
    ∧ (execOps Store.empty ops).rows.map Row.id
        = List.range' 1 (execOps Store.empty ops).rows.length :=
  ⟨storeIds_pairwise ops, storeIds_nodup ops, idsCanonical_reachable ops⟩

/-- C7: a PUT whose meal id misses the catalog yields HTTP 400 and
leaves the store untouched; the order store is not reached. -/
theorem C7_put_unknown_meal_rejected (s : Store) (now : Int)
    (table_id meal_id : Nat) (h : getMeal meal_id = none) :
    putOrder s now table_id meal_id = (400, s) := by
  unfold putOrder
  rw [h]

/-- Witness for C7: the PUT of `src/app.rs`'s own test
`test_put_invalid_order` — meal id 1234 is not in the catalog. -/
theorem C7_put_unknown_meal_rejected_witness :
    putOrder Store.empty 0 1 1234 = (400, Store.empty) :=
  C7_put_unknown_meal_rejected Store.empty 0 1 1234 (by decide)

/-- C8: `delete_order` only touches the deletion mark of the rows with
the given id: the table keeps its length (no physical removal), every
row with a different id is entirely unchanged, and the matching row
keeps `table_id`, `meal_id`, `added_at`, `ready_at` while its
`deleted_at` becomes the call time. -/
theorem C8_delete_is_frame_preserving (s : Store) (now : Int) (oid : Nat) :
    (deleteOrder s now oid).2.rows.length = s.rows.length
    ∧ ∀ i : Fin s.rows.length,
        ((s.rows.get i).id ≠ oid →
          (deleteOrder s now oid).2.rows.get
              ⟨i.val, by rw [deleteOrder_rows, List.length_map]; exact i.isLt⟩
            = s.rows.get i)
        ∧ ((s.rows.get i).id = oid →
          (deleteOrder s now oid).2.rows.get
              ⟨i.val, by rw [deleteOrder_rows, List.length_map]; exact i.isLt⟩
            = { s.rows.get i with deleted_at := some now }) := by
  constructor
  · rw [deleteOrder_rows, List.length_map]
  · intro i
    constructor
    · intro hid
      simp only [List.get_eq_getElem, deleteOrder_rows, List.getElem_map]
      rw [if_neg (by simpa using hid)]
    · intro hid
      simp only [List.get_eq_getElem, deleteOrder_rows, List.getElem_map]
      rw [if_pos (by simpa using hid)]

/-- Witness for C8 on a two-row store: deleting id 1 rewrites row 0's
deletion mark and leaves row 1 alone. -/
theorem C8_delete_is_frame_preserving_witness :
    (deleteOrder ⟨[⟨1, 2, 3, 0, 240, none⟩, ⟨2, 4, 5, 6, 306, none⟩]⟩ 9 1).2.rows.length = 2
    ∧ (deleteOrder ⟨[⟨1, 2, 3, 0, 240, none⟩, ⟨2, 4, 5, 6, 306, none⟩]⟩ 9 1).2.rows.get
        ⟨0, by decide⟩ = ⟨1, 2, 3, 0, 240, some 9⟩
    ∧ (deleteOrder ⟨[⟨1, 2, 3, 0, 240, none⟩, ⟨2, 4, 5, 6, 306, none⟩]⟩ 9 1).2.rows.get
        ⟨1, by decide⟩ = ⟨2, 4, 5, 6, 306, none⟩ := by
  refine ⟨(C8_delete_is_frame_preserving ⟨[⟨1, 2, 3, 0, 240, none⟩, ⟨2, 4, 5, 6, 306, none⟩]⟩ 9 1).1, ?_, ?_⟩
  · exact ((C8_delete_is_frame_preserving ⟨[⟨1, 2, 3, 0, 240, none⟩, ⟨2, 4, 5, 6, 306, none⟩]⟩ 9 1).2 ⟨0, by decide⟩).2 (by decide)
  · exact ((C8_delete_is_frame_preserving ⟨[⟨1, 2, 3, 0, 240, none⟩, ⟨2, 4, 5, 6, 306, none⟩]⟩ 9 1).2 ⟨1, by decide⟩).1 (by decide)

/-- C10: re-deleting an already deleted id overwrites the stored
deletion timestamp: two deletes at times `t1` then `t2` end in the same
state as a single delete at `t2`, and every row with the id carries
`deleted_at = t2`. -/
theorem C10_second_delete_overwrites_timestamp (s : Store) (t1 t2 : Int) (oid : Nat) :
    (deleteOrder (deleteOrder s t1 oid).2 t2 oid).2 = (deleteOrder s t2 oid).2
    ∧ ∀ r ∈ (deleteOrder (deleteOrder s t1 oid).2 t2 oid).2.rows,
        r.id = oid → r.deleted_at = some t2 := by
  constructor
  · show (⟨_⟩ : Store) = (⟨_⟩ : Store)
    congr 1
    rw [deleteOrder_rows, List.map_map]
    apply List.map_congr_left
    intro r _
    by_cases h : r.id = oid
    · simp [h]
    · simp [h]
  · intro r hr hid
    rw [deleteOrder_rows] at hr
    obtain ⟨x, hx, hxr⟩ := List.mem_map.mp hr
    subst hxr
    have hid' : x.id = oid := by rw [delete_map_id] at hid; exact hid
    rw [if_pos (beq_iff_eq.mpr hid')]

/-- Witness for C10: delete id 1 at time 5, then again at time 9; the
stored timestamp is 9, the time of the later call. -/
theorem C10_second_delete_overwrites_timestamp_witness :
    (deleteOrder (deleteOrder ⟨[⟨1, 2, 3, 0, 240, none⟩]⟩ 5 1).2 9 1).2
        = (deleteOrder ⟨[⟨1, 2, 3, 0, 240, none⟩]⟩ 9 1).2
    ∧ (⟨1, 2, 3, 0, 240, some 9⟩ : Row).deleted_at = some 9 :=
  ⟨(C10_second_delete_overwrites_timestamp ⟨[⟨1, 2, 3, 0, 240, none⟩]⟩ 5 9 1).1,
   (C10_second_delete_overwrites_timestamp ⟨[⟨1, 2, 3, 0, 240, none⟩]⟩ 5 9 1).2
     ⟨1, 2, 3, 0, 240, some 9⟩ (by decide) rfl⟩

/-- C3: for a meal id found in the catalog, `add_order` on the
factory-built order followed by `get_order` on the returned id yields
the order with that `table_id` and `meal_id`, whose
`ready_at - added_at` is exactly the catalog cooking time, and
`added_at < ready_at`. -/
theorem C3_add_then_get_roundtrip (s : Store) (table_id meal_id : Nat)
    (meal : MealInfo) (now : Int) (h : getMeal meal_id = some meal) :
    getOrder (addOrder s (Order.new table_id meal now)).2
        (addOrder s (Order.new table_id meal now)).1
      = some { id := (addOrder s (Order.new table_id meal now)).1
             , table_id := table_id, meal_id := meal_id
             , added_at := now, ready_at := now + meal.cooking_time }
    ∧ (now + meal.cooking_time) - now = meal.cooking_time
    ∧ now < now + meal.cooking_time := by
  have hmem : meal ∈ MEALS := List.mem_of_find?_eq_some h
  have hpred := List.find?_some h
  rw [beq_iff_eq] at hpred
  have hpos : 0 < meal.cooking_time := MEALS_cooking_pos meal hmem
  refine ⟨?_, by ring, by omega⟩
  rw [getOrder_addOrder s (Order.new table_id meal now)]
  rw [addOrder_fst]
  simp [Order.new, hpred]

/-- Witness for C3: table 2, meal 3 (Fried Egg, 240 s) at time 0. -/
theorem C3_add_then_get_roundtrip_witness :
    getMeal 3 = some ⟨3, "Fried Egg", 240⟩
    ∧ (getOrder (addOrder Store.empty (Order.new 2 ⟨3, "Fried Egg", 240⟩ 0)).2
          (addOrder Store.empty (Order.new 2 ⟨3, "Fried Egg", 240⟩ 0)).1
        = some { id := (addOrder Store.empty (Order.new 2 ⟨3, "Fried Egg", 240⟩ 0)).1
               , table_id := 2, meal_id := 3
               , added_at := 0, ready_at := 0 + 240 }
        ∧ ((0 : Int) + 240) - 0 = 240
        ∧ (0 : Int) < 0 + 240) :=
  ⟨by decide, C3_add_then_get_roundtrip Store.empty 2 3 ⟨3, "Fried Egg", 240⟩ 0 (by decide)⟩

/-- C4: `get_order` answers `none` exactly when no live row with the id
exists — both for ids never issued (no row at all) and for soft-deleted
ones (all rows with the id carry a deletion mark), indistinguishably —
and answers `some` exactly when a live row with the id exists. -/
theorem C4_get_order_none_or_some (s : Store) (oid : Nat) :
    (getOrder s oid = none ↔ ∀ r ∈ s.rows, r.id = oid → r.deleted_at ≠ none)
    ∧ ((∀ r ∈ s.rows, r.id ≠ oid) → getOrder s oid = none)
    ∧ ((getOrder s oid).isSome = true ↔
        ∃ r ∈ s.rows, r.id = oid ∧ r.deleted_at = none) := by
  refine ⟨getOrder_eq_none_iff s oid, ?_, getOrder_isSome_iff s oid⟩
  intro hnever
  exact (getOrder_eq_none_iff s oid).mpr fun r hr hid => absurd hid (hnever r hr)

/-- Witness for C4: a never-issued id and a soft-deleted id both give
`none`; a live id gives `some`. -/
theorem C4_get_order_none_or_some_witness :
    getOrder Store.empty 1 = none
    ∧ getOrder ⟨[⟨1, 2, 3, 0, 240, some 5⟩]⟩ 1 = none
    ∧ (getOrder ⟨[⟨1, 2, 3, 0, 240, none⟩]⟩ 1).isSome = true :=
  ⟨(C4_get_order_none_or_some Store.empty 1).2.1 (by decide),
   (C4_get_order_none_or_some ⟨[⟨1, 2, 3, 0, 240, some 5⟩]⟩ 1).1.mpr (by decide),
   (C4_get_order_none_or_some ⟨[⟨1, 2, 3, 0, 240, none⟩]⟩ 1).2.2.mpr
     ⟨⟨1, 2, 3, 0, 240, none⟩, by decide, rfl, rfl⟩⟩

/-- C6: deleted is terminal. After `delete_order` marks an existing id,
no further sequence of store operations ever makes the order visible
again: `get_order` on the id stays `none` and no table query lists it. -/
theorem C6_deleted_is_terminal (s : Store) (oid : Nat) (now : Int)
    (ops : List Op) (h : ∃ r ∈ s.rows, r.id = oid) :
    getOrder (execOps (deleteOrder s now oid).2 ops) oid = none
    ∧ ∀ t : Nat, ∀ o ∈ getOrdersForTable (execOps (deleteOrder s now oid).2 ops) t,
        o.id ≠ oid := by
  have hinv := deletedForever_exec oid _ ops (deletedForever_of_delete s now oid h)
  obtain ⟨-, hall⟩ := hinv
  constructor
  · exact (getOrder_eq_none_iff _ oid).mpr hall
  · intro t o ho hoid
    obtain ⟨r, hmem, -, hdel, hro⟩ := (mem_getOrdersForTable_iff _ t o).mp ho
    have hrid : r.id = oid := by rw [← hro] at hoid; exact hoid
    exact hall r hmem hrid hdel

/-- Witness for C6: delete order 1, then add another order and issue an
unrelated delete; order 1 stays invisible. -/
theorem C6_deleted_is_terminal_witness :
    getOrder (execOps (deleteOrder ⟨[⟨1, 2, 3, 0, 240, none⟩]⟩ 5 1).2
        [Op.add (Order.new 2 ⟨0, "Green Tea", 60⟩ 7), Op.delete 9 8]) 1 = none :=
  (C6_deleted_is_terminal ⟨[⟨1, 2, 3, 0, 240, none⟩]⟩ 1 5
      [Op.add (Order.new 2 ⟨0, "Green Tea", 60⟩ 7), Op.delete 9 8]
      ⟨⟨1, 2, 3, 0, 240, none⟩, by decide, rfl⟩).1

/-- C9: `add_order` ignores the id field of its argument (the factory
always passes the `u32::MAX` sentinel): replacing the supplied id
changes nothing, the returned id is the store's own fresh `n + 1`, the
stored row carries that id, and it is the sentinel only in the
astronomical state with `u32::MAX - 1` rows. -/
theorem C9_add_order_ignores_supplied_id (ops : List Op) (o : Order) (x : Nat) :
    addOrder (execOps Store.empty ops) { o with id := x }
      = addOrder (execOps Store.empty ops) o
    ∧ (addOrder (execOps Store.empty ops) o).1
        = (execOps Store.empty ops).rows.length + 1
    ∧ (addOrder (execOps Store.empty ops) o).2.rows.getLast?
        = some { id := (addOrder (execOps Store.empty ops) o).1
               , table_id := o.table_id, meal_id := o.meal_id
               , added_at := o.added_at, ready_at := o.ready_at
               , deleted_at := none }
    ∧ ((execOps Store.empty ops).rows.length + 1 ≠ sentinelId →
        (addOrder (execOps Store.empty ops) o).1 ≠ sentinelId) := by
  have hnext := nextId_of_canonical _ (idsCanonical_reachable ops)
  refine ⟨rfl, ?_, ?_, ?_⟩
  · rw [addOrder_fst, hnext]
  · rw [addOrder_rows]
    exact List.getLast?_concat _
  · rw [addOrder_fst, hnext]
    exact id

/-- Witness for C9: on the empty store, a factory order whose sentinel
id is replaced by 7 is stored identically; the assigned id is 1, not
the sentinel. -/
theorem C9_add_order_ignores_supplied_id_witness :
    addOrder (execOps Store.empty []) { Order.new 1 ⟨0, "Green Tea", 60⟩ 0 with id := 7 }
      = addOrder (execOps Store.empty []) (Order.new 1 ⟨0, "Green Tea", 60⟩ 0)
    ∧ (addOrder (execOps Store.empty []) (Order.new 1 ⟨0, "Green Tea", 60⟩ 0)).1 ≠ sentinelId :=
  ⟨(C9_add_order_ignores_supplied_id [] (Order.new 1 ⟨0, "Green Tea", 60⟩ 0) 7).1,
   (C9_add_order_ignores_supplied_id [] (Order.new 1 ⟨0, "Green Tea", 60⟩ 0) 7).2.2.2
     (by decide)⟩

/-- C2 (code_bug evidence): the query behind `get_orders_for_table`
has no `ORDER BY`, so the program does not deliver the insertion order
the claim requires. At the failing input — add (table 1, meal 4) at
time 0, then (table 1, meal 3) at time 1 — the table holds rows with
ids `[1, 2]` in insertion order, and the set of live orders for table 1
is exactly those two; but the scan over the schema's
`table_id_idx(table_id, meal_id, deleted_at)` index returns them in
meal-id order — id 2 (meal 3) before id 1 (meal 4) — whose id sequence
is not ascending, while the claim demands ascending ids. -/
theorem C2_missing_order_by_breaks_insertion_order :
    (execOps Store.empty [Op.add (Order.new 1 ⟨4, "Club Sandwich", 300⟩ 0),
        Op.add (Order.new 1 ⟨3, "Fried Egg", 240⟩ 1)]).rows.map Row.id = [1, 2]
    ∧ getOrdersForTable (execOps Store.empty
          [Op.add (Order.new 1 ⟨4, "Club Sandwich", 300⟩ 0),
           Op.add (Order.new 1 ⟨3, "Fried Egg", 240⟩ 1)]) 1
        = [⟨1, 1, 4, 0, 300⟩, ⟨2, 1, 3, 1, 241⟩]
    ∧ getOrdersForTableIdxScan (execOps Store.empty
          [Op.add (Order.new 1 ⟨4, "Club Sandwich", 300⟩ 0),
           Op.add (Order.new 1 ⟨3, "Fried Egg", 240⟩ 1)]) 1
        = [⟨2, 1, 3, 1, 241⟩, ⟨1, 1, 4, 0, 300⟩]
    ∧ ¬ (((getOrdersForTableIdxScan (execOps Store.empty
          [Op.add (Order.new 1 ⟨4, "Club Sandwich", 300⟩ 0),
           Op.add (Order.new 1 ⟨3, "Fried Egg", 240⟩ 1)]) 1).map Order.id).Pairwise
        (· < ·)) := by
  decide

end Restaurant
